import Mathlib

/-!
Formal model of the `web-crawler` repository.

The development shallowly embeds the crawl scheduler of `web_crawler.py`
(`scrape_website` / `_scrape`), its text extraction (`extract_page_text`),
the three static link extractors (`web_crawler.default_link_extractor`,
`interactive_link_extractor.default_link_extractor`,
`playwright_adapter._resolve_links`), the success-flag computations of the
two fetch paths, and the pagination loop of
`interactive_link_extractor._apply_pagination`.

External collaborators (HTTP transport, `urllib.parse`, BeautifulSoup's
parsing, Playwright) are modelled by small explicit structures: a URL is a
record of scheme/host/path/fragment, an href is a small inductive of the
reference shapes `urljoin` distinguishes, and a parsed HTML document is a
tree of element/text/comment nodes carrying only the attributes the code
reads (`href` on anchors, `alt` on images).  The network is a function from
URLs to fetch results.  User callbacks that may raise are modelled as
functions into `Except Unit`.
-/

/-- Model of a parsed URL (`urllib.parse.urlparse`): scheme, netloc (host),
path and fragment.  `host` plays the role of `netloc`. -/
structure Url where
  scheme : String
  host : String
  path : String
  frag : String
deriving DecidableEq

/-- Model of the value of an anchor's `href` attribute, split by the
reference shapes `urllib.parse.urljoin` distinguishes: an absolute http(s)
URL, a relative path reference, a fragment-only reference, and a reference
with a non-network scheme such as `mailto:`. -/
inductive Href where
  | abs (u : Url)
  | rel (path : String) (frag : String)
  | fragOnly (f : String)
  | other (scheme : String) (rest : String)
deriving DecidableEq

/-- The empty href string `""` is modelled as the empty relative reference. -/
def Href.isEmptyStr : Href → Bool
  | .rel "" "" => true
  | _ => false

/-- Model of `urllib.parse.urljoin(base, href)` on the href shapes above. -/
def urljoin (base : Url) : Href → Url
  | .abs u => u
  | .rel p f => { scheme := base.scheme, host := base.host, path := p, frag := f }
  | .fragOnly f => { base with frag := f }
  | .other s r => { scheme := s, host := "", path := r, frag := "" }

/-- Model of `urllib.parse.urldefrag(u)[0]`: the URL with its fragment
stripped. -/
def urldefrag (u : Url) : Url := { u with frag := "" }

/-- The attributes the crawler reads from an element: `href` (on anchors)
and `alt` (on images).  All other attributes are never consulted by the
code under verification and are not modelled. -/
structure Attrs where
  href : Option Href := none
  alt : Option String := none
deriving DecidableEq

mutual
/-- A parsed HTML document (BeautifulSoup tree): element nodes with a tag,
attributes and children, text nodes, and comment nodes.  The soup root is
an element node (BeautifulSoup's `[document]`). -/
inductive Node where
  | elem (tag : String) (attrs : Attrs) (children : NodeList)
  | text (s : String)
  | comment (s : String)
/-- A list of sibling nodes. -/
inductive NodeList where
  | nil
  | cons (head : Node) (tail : NodeList)
end

mutual
/-- `find_all(tags)` + `decompose()`: remove every element whose tag is in
`bad`, together with its whole subtree.  Removing a node returns `none`. -/
def removeTags (bad : List String) : Node → Option Node
  | .elem t a cs => if t ∈ bad then none else some (.elem t a (removeTagsList bad cs))
  | .text s => some (.text s)
  | .comment s => some (.comment s)
/-- List version of `removeTags`. -/
def removeTagsList (bad : List String) : NodeList → NodeList
  | .nil => .nil
  | .cons c cs =>
    match removeTags bad c with
    | some c2 => .cons c2 (removeTagsList bad cs)
    | none => removeTagsList bad cs
end

mutual
/-- The image pass of `extract_page_text`: an `img` with a non-empty
(stripped) `alt` is replaced by that text (`replace_with`, which drops any
children), an `img` without one is decomposed. -/
def imgPass : Node → Option Node
  | .elem t a cs =>
    if t = "img" then
      let alt := ((a.alt.getD "").trim)
      if alt = "" then none else some (.text alt)
    else some (.elem t a (imgPassList cs))
  | .text s => some (.text s)
  | .comment s => some (.comment s)
/-- List version of `imgPass`. -/
def imgPassList : NodeList → NodeList
  | .nil => .nil
  | .cons c cs =>
    match imgPass c with
    | some c2 => .cons c2 (imgPassList cs)
    | none => imgPassList cs
end

mutual
/-- The comment pass of `extract_page_text`: every `Comment` string node is
extracted from the tree. -/
def stripComments : Node → Option Node
  | .elem t a cs => some (.elem t a (stripCommentsList cs))
  | .text s => some (.text s)
  | .comment _ => none
/-- List version of `stripComments`. -/
def stripCommentsList : NodeList → NodeList
  | .nil => .nil
  | .cons c cs =>
    match stripComments c with
    | some c2 => .cons c2 (stripCommentsList cs)
    | none => stripCommentsList cs
end

/-- The non-content tags removed by the first pass of `extract_page_text`. -/
def nonContentTags : List String := ["script", "style", "noscript", "template", "svg", "iframe"]

/-- The boilerplate section tags removed by the second pass of
`extract_page_text`. -/
def boilerplateTags : List String := ["nav", "footer", "header", "aside"]

/-- All tags whose subtrees `extract_page_text` decomposes. -/
def badSectionTags : List String := nonContentTags ++ boilerplateTags

/-- Placeholder for the (unreachable) case in which a whole document is
removed: BeautifulSoup never decomposes the `[document]` root. -/
def emptyDoc : Node := .text ""

/-- The in-place mutation `extract_page_text` performs on the soup: the
four removal passes (non-content tags, boilerplate sections, images,
comments) run in source order over the whole document. -/
def stripTree (n : Node) : Node :=
  match (((removeTags nonContentTags n).bind
            (removeTags boilerplateTags)).bind imgPass).bind stripComments with
  | some m => m
  | none => emptyDoc

mutual
/-- The strings visible to `soup.get_text` after stripping, in document
order.  (Text nodes are modelled as single-line strings.) -/
def collectStrings : Node → List String
  | .elem _ _ cs => collectStringsList cs
  | .text s => [s]
  | .comment _ => []
/-- List version of `collectStrings`. -/
def collectStringsList : NodeList → List String
  | .nil => []
  | .cons c cs => collectStrings c ++ collectStringsList cs
end

/-- Per-line whitespace normalization `re.sub(r'\s+', ' ', line).strip()`
(modelled on space-separated words). -/
def normalizeLine (s : String) : String :=
  String.intercalate " " ((s.splitOn " ").filter (fun w => w ≠ ""))

/-- The text assembly of `extract_page_text`: `get_text(separator='\n',
strip=True)` followed by per-line normalization, dropping empty lines. -/
def renderText (n : Node) : String :=
  let pieces := ((collectStrings n).map String.trim).filter (fun s => s ≠ "")
  let lines := (pieces.map normalizeLine).filter (fun s => s ≠ "")
  String.intercalate "\n" lines

/-- `extract_page_text(soup)`: the function mutates the soup in place and
returns the extracted text; the model returns the pair
(mutated soup, extracted text). -/
def extract_page_text (soup : Node) : Node × String :=
  let s := stripTree soup
  (s, renderText s)

mutual
/-- `soup.find_all('a', href=True)` followed by reading `a['href']`: the
href values of all anchors, in document (pre-order) order. -/
def findAnchors : Node → List Href
  | .elem t a cs => (if t = "a" then a.href.toList else []) ++ findAnchorsList cs
  | .text _ => []
  | .comment _ => []
/-- List version of `findAnchors`. -/
def findAnchorsList : NodeList → List Href
  | .nil => []
  | .cons c cs => findAnchors c ++ findAnchorsList cs
end

mutual
/-- First element with tag `title` in document order (`soup.title`). -/
def findTitleNode : Node → Option Node
  | .elem t a cs => if t = "title" then some (.elem t a cs) else findTitleNodeList cs
  | .text _ => none
  | .comment _ => none
/-- List version of `findTitleNode`. -/
def findTitleNodeList : NodeList → Option Node
  | .nil => none
  | .cons c cs =>
    match findTitleNode c with
    | some r => some r
    | none => findTitleNodeList cs
end

/-- `tag.string`: the single string child of an element, when there is
exactly one child and it is a text node. -/
def titleString : Node → Option String
  | .elem _ _ (.cons (.text s) .nil) => some s
  | _ => none

/-- `soup.title.string.strip() if soup.title and soup.title.string else None`
(an empty string is falsy in Python). -/
def findTitle (n : Node) : Option String :=
  match findTitleNode n with
  | some tn =>
    match titleString tn with
    | some s => if s = "" then none else some s.trim
    | none => none
  | none => none

mutual
/-- An anchor with href `h` is reachable in the tree without passing
through an element whose tag is in `bad` and without passing through an
`img` element (whose replacement/removal drops its children). -/
def hasCleanAnchor (bad : List String) (h : Href) : Node → Bool
  | .elem t a cs =>
    if t ∈ bad ∨ t = "img" then false
    else (decide (t = "a" ∧ a.href = some h)) || hasCleanAnchorList bad h cs
  | .text _ => false
  | .comment _ => false
/-- List version of `hasCleanAnchor`. -/
def hasCleanAnchorList (bad : List String) (h : Href) : NodeList → Bool
  | .nil => false
  | .cons c cs => hasCleanAnchor bad h c || hasCleanAnchorList bad h cs
end

/-- Ordered first-occurrence de-duplication with an accumulator of already
seen items (`list(dict.fromkeys(out))`, and the seen-dict loop of
`_collect_links`). -/
def dedupFirstAux {α : Type} [DecidableEq α] (seen : List α) : List α → List α
  | [] => []
  | x :: xs => if x ∈ seen then dedupFirstAux seen xs else x :: dedupFirstAux (x :: seen) xs

/-- Ordered de-duplication keeping the first occurrence of each item. -/
def dedupFirst {α : Type} [DecidableEq α] (l : List α) : List α :=
  dedupFirstAux [] l

/-- `success = 200 <= response.status < 300` (web_crawler.py line 241). -/
def webCrawlerSuccess (status : Nat) : Bool :=
  decide (200 ≤ status ∧ status < 300)

/-- The `ScrapedPage` dataclass.  `html` is the raw markup (modelled by its
parse tree), `soup` the shared parse tree after `extract_page_text` has
mutated it.  The `headers` dict is carried through unchanged by the code
and is not consulted by any verified claim; the `Last-Modified` header it
contains is modelled directly by `lastModified`. -/
structure ScrapedPage where
  url : Url
  status : Nat
  success : Bool
  html : Node
  text : String
  soup : Node
  lastModified : Option Int
  title : Option String
  links : List Url

/-- `web_crawler.default_link_extractor`: all `<a href>` values of
`page.soup` resolved against `page.url`, kept only when the resolved
scheme is http or https.  (No de-duplication is performed.) -/
def default_link_extractor (page : ScrapedPage) : List Url :=
  ((findAnchors page.soup).map (urljoin page.url)).filter
    (fun u => u.scheme = "http" ∨ u.scheme = "https")

namespace InteractiveLinkExtractor

/-- `interactive_link_extractor.default_link_extractor`: re-parses
`scraped_page.html` and returns the raw `href` attribute values, with
ordered first-occurrence de-duplication.  The hrefs are neither resolved
against the page URL nor filtered by scheme (the source notes resolution
as a would-be extension in a comment). -/
def default_link_extractor (page : ScrapedPage) : List Href :=
  dedupFirst (findAnchors page.html)

end InteractiveLinkExtractor

namespace PlaywrightAdapter

/-- `playwright_adapter._resolve_links`: anchors of the rendered soup with
empty hrefs skipped, resolved against the base URL, kept only for http and
https, de-duplicated preserving first-occurrence order. -/
def _resolve_links (soup : Node) (base_url : Url) : List Url :=
  dedupFirst
    ((((findAnchors soup).filter (fun h => ¬ h.isEmptyStr = true)).map
        (urljoin base_url)).filter
      (fun u => u.scheme = "http" ∨ u.scheme = "https"))

/-- `success=bool(status) and 200 <= status < 400`
(playwright_adapter.py line 156). -/
def playwrightSuccess (status : Nat) : Bool :=
  (decide (status ≠ 0)) && decide (200 ≤ status ∧ status < 400)

/-- `crawl_url_with_playwright` building a `ScrapedPage` from a rendered
fetch (the Playwright transport itself is external: the model receives the
status, rendered markup, parsed `Last-Modified` value and title it
produced).  The default-extractor path imports and applies
`web_crawler.default_link_extractor` to the page built with empty links. -/
def crawl_url_with_playwright (url : Url) (status : Nat) (rawHtml : Node)
    (lastModified : Option Int) (title : Option String) : ScrapedPage :=
  let stripped := (extract_page_text rawHtml).1
  let page : ScrapedPage :=
    { url := url, status := status, success := playwrightSuccess status,
      html := rawHtml, text := (extract_page_text rawHtml).2, soup := stripped,
      lastModified := lastModified, title := title, links := [] }
  { page with links := default_link_extractor page }

end PlaywrightAdapter

/-- How the scheduler sees a raw (unresolved) href string returned by a
custom `link_extractor`: Python keeps links as strings, so an absolute
href already is a URL, while `urlparse` on a relative or fragment-only
href yields an empty scheme and netloc (and on another scheme, an empty
netloc). -/
def Href.asRawUrl : Href → Url
  | .abs u => u
  | .rel p f => { scheme := "", host := "", path := p, frag := f }
  | .fragOnly f => { scheme := "", host := "", path := "", frag := f }
  | .other s r => { scheme := s, host := "", path := r, frag := "" }

/-- The extractor `make_interactive_link_extractor` produces, on its
baseline path (dynamic interaction disabled or not triggered), as it plugs
into `scrape_website`'s `link_extractor` slot: the de-duplicated raw hrefs
of the re-parsed raw markup (`page.html`), handed back to the scheduler as
URL strings. -/
def interactiveBaselineExtractor (p : ScrapedPage) : Except Unit (List Url) :=
  Except.ok ((InteractiveLinkExtractor.default_link_extractor p).map Href.asRawUrl)

/-- The outcome of one fetch in the modelled network: `failure` is a raised
transport error (connection error, timeout); a `response` carries the HTTP
status, the content type, the parsed document and the `Last-Modified`
header (`none` = header absent, `some none` = present but unparseable,
`some (some t)` = parsed to the UTC timestamp `t`, timestamps being
modelled as integers). -/
inductive FetchResult where
  | failure
  | response (status : Nat) (contentType : String) (soup : Node)
      (lastModifiedHeader : Option (Option Int))

/-- The environment of one crawl: the network and the user-supplied
callbacks of `scrape_website`.  Callbacks that may raise are functions into
`Except Unit`; `urlRegex` models the compiled follow pattern as the
predicate `re.match` induces; `sinceUtc` is the `since` cutoff already
normalized to UTC. -/
structure CrawlEnv where
  world : Url → FetchResult
  dataHandler : ScrapedPage → Except Unit Bool
  stopHandler : Option (Url → Nat → List Url → Except Unit Bool)
  linkExtractor : Option (ScrapedPage → Except Unit (List Url))
  urlRegex : Option (Url → Bool)
  sinceUtc : Option Int

/-- The observable state of one crawl: the contents of the `ThreadSafeSet`
of visited URLs (in insertion order), the URLs for which `session.get` was
issued, and the pages passed to `data_handler`, in order. -/
structure CrawlState where
  visited : List Url
  fetchLog : List Url
  dataLog : List ScrapedPage

/-- How a crawl step ends before any recursion: `escaped` models an
exception propagating out of `_scrape` (only `stop_handler` can cause
this), `abandoned` a normal return without recursion, `expand` a page
whose links are to be followed. -/
inductive StepOutcome where
  | escaped
  | abandoned
  | expand (payload : ScrapedPage)

/-- Content types accepted by the early HTML check of `_scrape`. -/
def htmlContentTypes : List String := ["text/html", "application/xhtml+xml"]

/-- The follow filter `url_regex is not None and not re.match(url_regex, next_url)`. -/
def urlKeep (env : CrawlEnv) (next : Url) : Bool :=
  match env.urlRegex with
  | some p => p next
  | none => true

/-- The body of `_scrape` from a received response to the `data_handler`
decision (web_crawler.py lines 204-276): `raise_for_status`, the HTML
content-type check, `Last-Modified` parsing and the freshness skip, text
extraction (mutating the shared soup), title and success computation, link
extraction via the effective extractor, and the `data_handler` call.
Exceptions of the extractor and of `data_handler` are caught by the
enclosing `except` of the step, ending it normally. -/
def processResponse (env : CrawlEnv) (u : Url) (status : Nat) (ctype : String)
    (rawSoup : Node) (lmHeader : Option (Option Int)) (st : CrawlState) :
    CrawlState × StepOutcome :=
  if 400 ≤ status then (st, .abandoned)
  else if ctype ∉ htmlContentTypes then (st, .abandoned)
  else
    let lmDt : Option Int :=
      match lmHeader with
      | some (some t) => some t
      | _ => none
    let isStale : Bool :=
      lmHeader.isSome &&
        (match env.sinceUtc, lmDt with
         | some s, some t => decide (t < s)
         | _, _ => false)
    if isStale then (st, .abandoned)
    else
      let stripped := (extract_page_text rawSoup).1
      let pageText := (extract_page_text rawSoup).2
      let title := findTitle stripped
      let success := webCrawlerSuccess status
      let tempPage : ScrapedPage :=
        { url := u, status := status, success := success, html := rawSoup,
          text := pageText, soup := stripped, lastModified := lmDt,
          title := title, links := [] }
      let linksRes : Except Unit (List Url) :=
        match env.linkExtractor with
        | some ext => ext tempPage
        | none => Except.ok (default_link_extractor tempPage)
      match linksRes with
      | Except.error _ => (st, .abandoned)
      | Except.ok links =>
        let payload : ScrapedPage := { tempPage with links := links }
        let st3 : CrawlState := { st with dataLog := st.dataLog ++ [payload] }
        match env.dataHandler payload with
        | Except.error _ => (st3, .abandoned)
        | Except.ok false => (st3, .abandoned)
        | Except.ok true => (st3, .expand payload)

/-- One `_scrape` step before recursion (web_crawler.py lines 187-276):
the `stop_handler` check (whose exception is NOT caught and escapes the
step), the visited-set membership test followed by the separate insert,
and the fetch.  A transport failure is caught by the step's `except` and
abandons the step silently. -/
def stepCore (env : CrawlEnv) (d : Nat) (u : Url) (st : CrawlState) :
    CrawlState × StepOutcome :=
  let stopRes : Except Unit Bool :=
    match env.stopHandler with
    | some sh => sh u d st.visited
    | none => Except.ok false
  match stopRes with
  | Except.error _ => (st, .escaped)
  | Except.ok true => (st, .abandoned)
  | Except.ok false =>
    if u ∈ st.visited then (st, .abandoned)
    else
      let st2 : CrawlState :=
        { st with visited := st.visited ++ [u], fetchLog := st.fetchLog ++ [u] }
      match env.world u with
      | FetchResult.failure => (st2, .abandoned)
      | FetchResult.response status ctype rawSoup lmHeader =>
        processResponse env u status ctype rawSoup lmHeader st2

/-- The recursion loop of `_scrape` (web_crawler.py lines 279-287): for
each extracted link, apply the regex restriction, the same-domain check
against the hosting page's host, and the visited check, then recurse.  A
`true` escape flag returned by a child (a propagating exception) aborts
the remaining iterations and propagates. -/
def scrapeChildren (visit : Url → CrawlState → CrawlState × Bool)
    (keep : Url → Bool) (originHost : String) :
    List Url → CrawlState → CrawlState × Bool
  | [], st => (st, false)
  | next :: rest, st =>
    if keep next = true ∧ next.host = originHost ∧ next ∉ st.visited then
      let r := visit next st
      if r.2 then r else scrapeChildren visit keep originHost rest r.1
    else scrapeChildren visit keep originHost rest st

/-- A `_scrape` call that performs no recursion: the step core followed by
the translation of its outcome into the call's result (the escape flag is
`true` exactly when a `stop_handler` exception propagates).  This is the
whole behaviour of `_scrape` when `current_depth > 1` fails, which the
`expand` outcome then ignores. -/
def stepNoRec (env : CrawlEnv) (d : Nat) (u : Url) (st : CrawlState) : CrawlState × Bool :=
  match stepCore env d u st with
  | (st1, .escaped) => (st1, true)
  | (st1, .abandoned) => (st1, false)
  | (st1, .expand _) => (st1, false)

/-- One full `_scrape(current_url, current_depth)` call.  The Boolean
result is `true` when an exception escapes the call (only a
`stop_handler` exception can).  Recursion runs only when
`current_depth > 1`, with `current_depth - 1`, and a child's escaping
exception is caught by this step's own `except` clause. -/
def scrapeVisit (env : CrawlEnv) : Nat → Url → CrawlState → CrawlState × Bool
  | 0, u, st => stepNoRec env 0 u st
  | 1, u, st => stepNoRec env 1 u st
  | Nat.succ (Nat.succ k), u, st =>
    match stepCore env (Nat.succ (Nat.succ k)) u st with
    | (st1, .escaped) => (st1, true)
    | (st1, .abandoned) => (st1, false)
    | (st1, .expand payload) =>
      ((scrapeChildren (fun v s => scrapeVisit env (Nat.succ k) v s)
          (urlKeep env) u.host payload.links st1).1, false)

/-- `scrape_website(url, ..., depth)`: runs `_scrape(url, depth)` on a
fresh visited set.  The escape flag is `true` when an exception propagates
out of the whole crawl. -/
def scrape_website (env : CrawlEnv) (url : Url) (depth : Nat) : CrawlState × Bool :=
  scrapeVisit env depth url { visited := [], fetchLog := [], dataLog := [] }

namespace InteractiveLinkExtractor

/-- The append loop of `_apply_pagination`: each collected link is appended
to the working list unless it is already present (membership checked
against the growing list). -/
def appendNew {α : Type} [DecidableEq α] : List α → List α → List α
  | working, [] => working
  | working, l :: ls => appendNew (if l ∈ working then working else working ++ [l]) ls

/-- `len(set(after) - set(before))`: the number of distinct items of
`after` that do not occur in `before`. -/
def newLinkCount {α : Type} [DecidableEq α] (after before : List α) : Nat :=
  (dedupFirst (after.filter (fun l => decide (l ∉ before)))).length

/-- The pagination parameters read by `_apply_pagination`. -/
structure PaginationConfig where
  max_clicks : Nat
  stop_if_no_new_links : Bool

/-- The dict returned by `_apply_pagination`. -/
structure PaginationResult (α : Type) where
  clicks : Nat
  total_new_links : Nat
  final_links : List α

/-- The `while clicks < max_clicks` loop of `_apply_pagination`, with
`rem = max_clicks - clicks` as the fuel.  `collectAfterClick n` models the
page interaction of iteration `n` (locating the next control, clicking it
and re-collecting links): `none` when no next control is found or the
click raises (both `break` before counting a click), `some ls` the links
collected after a successful click. -/
def paginationLoop {α : Type} [DecidableEq α]
    (collectAfterClick : Nat → Option (List α)) (stopIfNoNew : Bool) :
    Nat → Nat → Nat → List α → PaginationResult α
  | 0, clicks, totalNew, working => ⟨clicks, totalNew, working⟩
  | Nat.succ rem, clicks, totalNew, working =>
    match collectAfterClick clicks with
    | none => ⟨clicks, totalNew, working⟩
    | some collected =>
      let w2 := appendNew working collected
      let delta := newLinkCount w2 working
      if stopIfNoNew = true ∧ delta = 0 then ⟨clicks + 1, totalNew + delta, w2⟩
      else paginationLoop collectAfterClick stopIfNoNew rem (clicks + 1) (totalNew + delta) w2

/-- `interactive_link_extractor._apply_pagination`: the bounded
click-through loop over the mutable working link list. -/
def _apply_pagination {α : Type} [DecidableEq α]
    (collectAfterClick : Nat → Option (List α)) (cfg : PaginationConfig)
    (working_links : List α) : PaginationResult α :=
  paginationLoop collectAfterClick cfg.stop_if_no_new_links cfg.max_clicks 0 0 working_links

end InteractiveLinkExtractor

theorem mem_dedupFirstAux {α : Type} [DecidableEq α] (l : List α) :
    ∀ (seen : List α) (y : α), y ∈ dedupFirstAux seen l ↔ y ∈ l ∧ y ∉ seen := by
  induction l with
  | nil => intro seen y; simp [dedupFirstAux]
  | cons x xs ih =>
    intro seen y
    by_cases hx : x ∈ seen
    · simp only [dedupFirstAux, if_pos hx, ih, List.mem_cons]
      constructor
      · rintro ⟨hy, hns⟩; exact ⟨Or.inr hy, hns⟩
      · rintro ⟨hy | hy, hns⟩
        · exact absurd (hy ▸ hx) hns
        · exact ⟨hy, hns⟩
    · simp only [dedupFirstAux, if_neg hx, List.mem_cons, ih]
      constructor
      · rintro (rfl | ⟨hy, hns⟩)
        · exact ⟨Or.inl rfl, hx⟩
        · exact ⟨Or.inr hy, fun hs => hns (Or.inr hs)⟩
      · rintro ⟨rfl | hy, hns⟩
        · exact Or.inl rfl
        · by_cases hyx : y = x
          · exact Or.inl hyx
          · exact Or.inr ⟨hy, fun hs => hs.elim hyx hns⟩

theorem nodup_dedupFirstAux {α : Type} [DecidableEq α] (l : List α) :
    ∀ seen : List α, (dedupFirstAux seen l).Nodup := by
  induction l with
  | nil => intro seen; simp [dedupFirstAux]
  | cons x xs ih =>
    intro seen
    by_cases hx : x ∈ seen
    · simpa [dedupFirstAux, if_pos hx] using ih seen
    · simp only [dedupFirstAux, if_neg hx]
      refine List.nodup_cons.mpr ⟨fun hmem => ?_, ih _⟩
      exact ((mem_dedupFirstAux xs _ x).mp hmem).2 (List.mem_cons_self x seen)

theorem dedupFirstAux_sublist {α : Type} [DecidableEq α] (l : List α) :
    ∀ seen : List α, (dedupFirstAux seen l).Sublist l := by
  induction l with
  | nil => intro seen; simp [dedupFirstAux]
  | cons x xs ih =>
    intro seen
    by_cases hx : x ∈ seen
    · simpa [dedupFirstAux, if_pos hx] using (ih seen).cons x
    · simpa [dedupFirstAux, if_neg hx] using (ih (x :: seen)).cons₂ x

theorem mem_dedupFirst {α : Type} [DecidableEq α] (l : List α) (y : α) :
    y ∈ dedupFirst l ↔ y ∈ l := by
  simp [dedupFirst, mem_dedupFirstAux]

theorem nodup_dedupFirst {α : Type} [DecidableEq α] (l : List α) :
    (dedupFirst l).Nodup :=
  nodup_dedupFirstAux l []

theorem dedupFirst_sublist {α : Type} [DecidableEq α] (l : List α) :
    (dedupFirst l).Sublist l :=
  dedupFirstAux_sublist l []

namespace InteractiveLinkExtractor

theorem mem_appendNew_of_mem {α : Type} [DecidableEq α] :
    ∀ (ls working : List α) (x : α), x ∈ working → x ∈ appendNew working ls := by
  intro ls
  induction ls with
  | nil => intro working x hx; simpa [appendNew] using hx
  | cons l ls ih =>
    intro working x hx
    simp only [appendNew]
    by_cases hl : l ∈ working
    · simpa [if_pos hl] using ih working x hx
    · exact if_neg hl ▸ ih _ x (List.mem_append_left _ hx)

theorem paginationLoop_clicks_le {α : Type} [DecidableEq α]
    (env : Nat → Option (List α)) (stop : Bool) :
    ∀ (rem clicks totalNew : Nat) (working : List α),
      (paginationLoop env stop rem clicks totalNew working).clicks ≤ clicks + rem := by
  intro rem
  induction rem with
  | zero => intro clicks t w; simp [paginationLoop]
  | succ rem ih =>
    intro clicks t w
    simp only [paginationLoop]
    cases env clicks with
    | none => simp
    | some collected =>
      simp only
      by_cases hstop : stop = true ∧ newLinkCount (appendNew w collected) w = 0
      · simp only [if_pos hstop]; omega
      · simp only [if_neg hstop]
        calc (paginationLoop env stop rem (clicks + 1) _ _).clicks
            ≤ (clicks + 1) + rem := ih _ _ _
          _ = clicks + (rem + 1) := by omega

theorem paginationLoop_superset {α : Type} [DecidableEq α]
    (env : Nat → Option (List α)) (stop : Bool) :
    ∀ (rem clicks totalNew : Nat) (working : List α) (x : α), x ∈ working →
      x ∈ (paginationLoop env stop rem clicks totalNew working).final_links := by
  intro rem
  induction rem with
  | zero => intro clicks t w x hx; simpa [paginationLoop] using hx
  | succ rem ih =>
    intro clicks t w x hx
    simp only [paginationLoop]
    cases env clicks with
    | none => simpa using hx
    | some collected =>
      simp only
      by_cases hstop : stop = true ∧ newLinkCount (appendNew w collected) w = 0
      · simpa [if_pos hstop] using mem_appendNew_of_mem collected w x hx
      · simpa [if_neg hstop] using ih _ _ _ x (mem_appendNew_of_mem collected w x hx)

end InteractiveLinkExtractor

theorem processResponse_visited (env : CrawlEnv) (u : Url) (status : Nat) (ctype : String)
    (soup : Node) (lm : Option (Option Int)) (st : CrawlState) :
    (processResponse env u status ctype soup lm st).1.visited = st.visited := by
  unfold processResponse
  repeat' first | split | dsimp only

theorem processResponse_fetchLog (env : CrawlEnv) (u : Url) (status : Nat) (ctype : String)
    (soup : Node) (lm : Option (Option Int)) (st : CrawlState) :
    (processResponse env u status ctype soup lm st).1.fetchLog = st.fetchLog := by
  unfold processResponse
  repeat' first | split | dsimp only

theorem processResponse_dataLog (env : CrawlEnv) (u : Url) (status : Nat) (ctype : String)
    (soup : Node) (lm : Option (Option Int)) (st : CrawlState) :
    (processResponse env u status ctype soup lm st).1.dataLog = st.dataLog ∨
      ∃ p : ScrapedPage, (processResponse env u status ctype soup lm st).1.dataLog = st.dataLog ++ [p] := by
  unfold processResponse
  repeat' first | split | dsimp only
  all_goals first
    | exact Or.inl rfl
    | exact Or.inr ⟨_, rfl⟩

theorem stepCore_state (env : CrawlEnv) (d : Nat) (u : Url) (st : CrawlState) :
    ((stepCore env d u st).1.visited = st.visited ∧
      (stepCore env d u st).1.fetchLog = st.fetchLog) ∨
    (u ∉ st.visited ∧ (stepCore env d u st).1.visited = st.visited ++ [u] ∧
      (stepCore env d u st).1.fetchLog = st.fetchLog ++ [u]) := by
  unfold stepCore
  repeat' first | split | dsimp only
  all_goals first
    | exact Or.inl ⟨rfl, rfl⟩
    | exact Or.inr ⟨‹u ∉ st.visited›, rfl, rfl⟩
    | exact Or.inr ⟨‹u ∉ st.visited›, by rw [processResponse_visited], by rw [processResponse_fetchLog]⟩

theorem stepCore_dataLog (env : CrawlEnv) (d : Nat) (u : Url) (st : CrawlState) :
    (stepCore env d u st).1.dataLog = st.dataLog ∨
      ∃ p : ScrapedPage, (stepCore env d u st).1.dataLog = st.dataLog ++ [p] := by
  unfold stepCore
  repeat' first | split | dsimp only
  all_goals first
    | exact Or.inl rfl
    | exact processResponse_dataLog _ _ _ _ _ _ _

theorem stepNoRec_pres (env : CrawlEnv) (P : CrawlState → Prop)
    (hstep : ∀ (d : Nat) (u : Url) (s : CrawlState), P s → P (stepCore env d u s).1)
    (d : Nat) (u : Url) (s : CrawlState) (h : P s) : P (stepNoRec env d u s).1 := by
  unfold stepNoRec
  rcases hsc : stepCore env d u s with ⟨st1, out⟩
  have h1 : P st1 := by have := hstep d u s h; rw [hsc] at this; exact this
  cases out <;> exact h1

theorem scrapeChildren_pres (P : CrawlState → Prop)
    (visit : Url → CrawlState → CrawlState × Bool) (keep : Url → Bool) (oh : String)
    (hv : ∀ (v : Url) (s : CrawlState), P s → P (visit v s).1) :
    ∀ (ls : List Url) (st : CrawlState), P st → P (scrapeChildren visit keep oh ls st).1 := by
  intro ls
  induction ls with
  | nil => intro st h; simpa [scrapeChildren] using h
  | cons next rest ih =>
    intro st h
    simp only [scrapeChildren]
    split
    · split
      · exact hv next st h
      · exact ih _ (hv next st h)
    · exact ih st h

theorem scrapeVisit_pres (env : CrawlEnv) (P : CrawlState → Prop)
    (hstep : ∀ (d : Nat) (u : Url) (s : CrawlState), P s → P (stepCore env d u s).1) :
    ∀ (d : Nat) (u : Url) (s : CrawlState), P s → P (scrapeVisit env d u s).1 := by
  intro d
  induction d with
  | zero => intro u s h; exact stepNoRec_pres env P hstep 0 u s h
  | succ n ih =>
    intro u s h
    cases n with
    | zero => exact stepNoRec_pres env P hstep 1 u s h
    | succ m =>
      simp only [scrapeVisit]
      rcases hsc : stepCore env (m + 2) u s with ⟨st1, out⟩
      have h1 : P st1 := by have := hstep (m + 2) u s h; rw [hsc] at this; exact this
      cases out with
      | escaped => exact h1
      | abandoned => exact h1
      | expand payload =>
        exact scrapeChildren_pres P _ _ _ (fun v s2 h2 => ih v s2 h2) payload.links st1 h1

theorem stepNoRec_fst (env : CrawlEnv) (d : Nat) (u : Url) (st : CrawlState) :
    (stepNoRec env d u st).1 = (stepCore env d u st).1 := by
  unfold stepNoRec
  rcases stepCore env d u st with ⟨st1, out⟩
  cases out <;> rfl

theorem stepCore_fetchLog_sub (env : CrawlEnv) (d : Nat) (u : Url) (st : CrawlState) :
    ∀ w ∈ (stepCore env d u st).1.fetchLog, w ∈ st.fetchLog ∨ w = u := by
  rcases stepCore_state env d u st with ⟨_, hf⟩ | ⟨_, _, hf⟩
  · intro w hw; exact Or.inl (hf ▸ hw)
  · intro w hw
    rw [hf] at hw
    rcases List.mem_append.mp hw with h | h
    · exact Or.inl h
    · exact Or.inr (List.mem_singleton.mp h)

theorem scrapeChildren_host (visit : Url → CrawlState → CrawlState × Bool)
    (keep : Url → Bool) (oh : String)
    (hv : ∀ (v : Url) (s : CrawlState), v.host = oh →
      ∀ w ∈ (visit v s).1.fetchLog, w ∈ s.fetchLog ∨ w.host = oh) :
    ∀ (ls : List Url) (st : CrawlState),
      ∀ w ∈ (scrapeChildren visit keep oh ls st).1.fetchLog,
        w ∈ st.fetchLog ∨ w.host = oh := by
  intro ls
  induction ls with
  | nil => intro st w hw; exact Or.inl (by simpa [scrapeChildren] using hw)
  | cons next rest ih =>
    intro st w hw
    simp only [scrapeChildren] at hw
    split at hw
    · rename_i hguard
      split at hw
      · exact hv next st hguard.2.1 w hw
      · rcases ih _ w hw with hmem | hh
        · exact hv next st hguard.2.1 w hmem
        · exact Or.inr hh
    · exact ih st w hw

theorem scrapeVisit_host (env : CrawlEnv) :
    ∀ (d : Nat) (u : Url) (st : CrawlState),
      ∀ w ∈ (scrapeVisit env d u st).1.fetchLog,
        w ∈ st.fetchLog ∨ w.host = u.host := by
  intro d
  induction d with
  | zero =>
    intro u st w hw
    simp only [scrapeVisit] at hw
    rw [stepNoRec_fst] at hw
    rcases stepCore_fetchLog_sub env 0 u st w hw with h | rfl
    · exact Or.inl h
    · exact Or.inr rfl
  | succ n ih =>
    intro u st w hw
    cases n with
    | zero =>
      simp only [scrapeVisit] at hw
      rw [stepNoRec_fst] at hw
      rcases stepCore_fetchLog_sub env 1 u st w hw with h | rfl
      · exact Or.inl h
      · exact Or.inr rfl
    | succ m =>
      simp only [scrapeVisit] at hw
      rcases hsc : stepCore env (m + 2) u st with ⟨st1, out⟩
      rw [hsc] at hw
      have hsub : ∀ v ∈ st1.fetchLog, v ∈ st.fetchLog ∨ v = u := by
        intro v hv
        have := stepCore_fetchLog_sub env (m + 2) u st v
        rw [hsc] at this
        exact this hv
      cases out with
      | escaped =>
        rcases hsub w hw with h | rfl
        · exact Or.inl h
        · exact Or.inr rfl
      | abandoned =>
        rcases hsub w hw with h | rfl
        · exact Or.inl h
        · exact Or.inr rfl
      | expand payload =>
        have hv : ∀ (v : Url) (s : CrawlState), v.host = u.host →
            ∀ w2 ∈ ((fun v s => scrapeVisit env (Nat.succ m) v s) v s).1.fetchLog,
              w2 ∈ s.fetchLog ∨ w2.host = u.host := by
          intro v s hvh w2 hw2
          rcases ih v s w2 hw2 with h | h
          · exact Or.inl h
          · exact Or.inr (hvh ▸ h)
        rcases scrapeChildren_host _ (urlKeep env) u.host hv payload.links st1 w hw with h | h
        · rcases hsub w h with h2 | rfl
          · exact Or.inl h2
          · exact Or.inr rfl
        · exact Or.inr h

def FetchInv (st : CrawlState) : Prop :=
  st.fetchLog.Nodup ∧ ∀ v ∈ st.fetchLog, v ∈ st.visited

theorem stepCore_fetchInv (env : CrawlEnv) (d : Nat) (u : Url) (st : CrawlState)
    (h : FetchInv st) : FetchInv (stepCore env d u st).1 := by
  rcases stepCore_state env d u st with ⟨hv, hf⟩ | ⟨hnv, hv, hf⟩
  · exact ⟨hf ▸ h.1, fun v hvm => hv ▸ h.2 v (hf ▸ hvm)⟩
  · constructor
    · rw [hf, List.nodup_append]
      have hu : u ∉ st.fetchLog := fun hm => hnv (h.2 u hm)
      exact ⟨h.1, List.nodup_singleton u,
        fun a ha hb => hu (List.mem_singleton.mp hb ▸ ha)⟩
    · intro v hvm
      rw [hf] at hvm
      rw [hv]
      rcases List.mem_append.mp hvm with hm | hm
      · exact List.mem_append_left _ (h.2 v hm)
      · exact List.mem_append_right _ hm

mutual
theorem stripComments_anchors : ∀ (n m : Node), stripComments n = some m →
    findAnchors m = findAnchors n
  | .elem t a cs, m, hm => by
    simp only [stripComments, Option.some.injEq] at hm
    subst hm
    simp only [findAnchors, stripCommentsList_anchors cs]
  | .text s, m, hm => by
    simp only [stripComments, Option.some.injEq] at hm
    subst hm
    rfl
  | .comment s, m, hm => by simp [stripComments] at hm
theorem stripCommentsList_anchors : ∀ cs : NodeList,
    findAnchorsList (stripCommentsList cs) = findAnchorsList cs
  | .nil => rfl
  | .cons c cs => by
    simp only [stripCommentsList]
    cases hc : stripComments c with
    | some c2 =>
      simp only [findAnchorsList]
      rw [stripComments_anchors c c2 hc, stripCommentsList_anchors cs]
    | none =>
      cases c with
      | elem t a cs2 => simp [stripComments] at hc
      | text s => simp [stripComments] at hc
      | comment s =>
        simp only [findAnchorsList, findAnchors, List.nil_append]
        exact stripCommentsList_anchors cs
end

mutual
theorem imgPass_clean : ∀ (n m : Node) (h : Href), imgPass n = some m →
    h ∈ findAnchors m → hasCleanAnchor [] h n = true
  | .elem t a cs, m, h, hm, hmem => by
    by_cases ht : t = "img"
    · simp only [imgPass, if_pos ht] at hm
      by_cases halt : ((a.alt.getD "").trim) = ""
      · simp [halt] at hm
      · rw [if_neg halt] at hm
        simp only [Option.some.injEq] at hm
        subst hm
        simp [findAnchors] at hmem
    · simp only [imgPass, if_neg ht, Option.some.injEq] at hm
      subst hm
      simp only [findAnchors] at hmem
      simp only [hasCleanAnchor]
      rw [if_neg (by simp [ht])]
      simp only [Bool.or_eq_true, decide_eq_true_eq]
      rcases List.mem_append.mp hmem with hh | hh
      · by_cases hta : t = "a"
        · rw [if_pos hta] at hh
          cases ha : a.href with
          | none => rw [ha] at hh; simp [Option.toList] at hh
          | some h2 =>
            rw [ha] at hh
            simp only [Option.toList] at hh
            rcases List.mem_singleton.mp hh with rfl
            exact Or.inl ⟨hta, rfl⟩
        · rw [if_neg hta] at hh
          simp at hh
      · exact Or.inr (imgPassList_clean cs h hh)
  | .text s, m, h, hm, hmem => by
    simp only [imgPass, Option.some.injEq] at hm
    subst hm
    simp [findAnchors] at hmem
  | .comment s, m, h, hm, hmem => by
    simp only [imgPass, Option.some.injEq] at hm
    subst hm
    simp [findAnchors] at hmem
theorem imgPassList_clean : ∀ (cs : NodeList) (h : Href),
    h ∈ findAnchorsList (imgPassList cs) → hasCleanAnchorList [] h cs = true
  | .nil, h, hmem => by simp [imgPassList, findAnchorsList] at hmem
  | .cons c cs, h, hmem => by
    simp only [imgPassList] at hmem
    simp only [hasCleanAnchorList, Bool.or_eq_true]
    cases hc : imgPass c with
    | some c2 =>
      rw [hc] at hmem
      simp only [findAnchorsList] at hmem
      rcases List.mem_append.mp hmem with hh | hh
      · exact Or.inl (imgPass_clean c c2 h hc hh)
      · exact Or.inr (imgPassList_clean cs h hh)
    | none =>
      rw [hc] at hmem
      exact Or.inr (imgPassList_clean cs h hmem)
end

mutual
theorem removeTags_clean : ∀ (bad bads : List String) (n m : Node) (h : Href),
    removeTags bad n = some m → hasCleanAnchor bads h m = true →
    hasCleanAnchor (bad ++ bads) h n = true
  | bad, bads, .elem t a cs, m, h, hm, hcl => by
    simp only [removeTags] at hm
    by_cases ht : t ∈ bad
    · simp [ht] at hm
    · rw [if_neg ht] at hm
      simp only [Option.some.injEq] at hm
      subst hm
      simp only [hasCleanAnchor] at hcl ⊢
      by_cases hcond : t ∈ bads ∨ t = "img"
      · rw [if_pos hcond] at hcl
        exact absurd hcl (by simp)
      · rw [if_neg hcond] at hcl
        have hcond2 : ¬ (t ∈ bad ++ bads ∨ t = "img") := by
          rintro (hmem | himg)
          · rcases List.mem_append.mp hmem with h1 | h2
            · exact ht h1
            · exact hcond (Or.inl h2)
          · exact hcond (Or.inr himg)
        rw [if_neg hcond2]
        simp only [Bool.or_eq_true] at hcl ⊢
        rcases hcl with hdec | hlist
        · exact Or.inl hdec
        · exact Or.inr (removeTagsList_clean bad bads cs h hlist)
  | bad, bads, .text s, m, h, hm, hcl => by
    simp only [removeTags, Option.some.injEq] at hm
    subst hm
    simp [hasCleanAnchor] at hcl
  | bad, bads, .comment s, m, h, hm, hcl => by
    simp only [removeTags, Option.some.injEq] at hm
    subst hm
    simp [hasCleanAnchor] at hcl
theorem removeTagsList_clean : ∀ (bad bads : List String) (cs : NodeList) (h : Href),
    hasCleanAnchorList bads h (removeTagsList bad cs) = true →
    hasCleanAnchorList (bad ++ bads) h cs = true
  | bad, bads, .nil, h, hcl => by simp [removeTagsList, hasCleanAnchorList] at hcl
  | bad, bads, .cons c cs, h, hcl => by
    simp only [removeTagsList] at hcl
    simp only [hasCleanAnchorList, Bool.or_eq_true]
    cases hc : removeTags bad c with
    | some c2 =>
      rw [hc] at hcl
      simp only [hasCleanAnchorList, Bool.or_eq_true] at hcl
      rcases hcl with hh | hh
      · exact Or.inl (removeTags_clean bad bads c c2 h hc hh)
      · exact Or.inr (removeTagsList_clean bad bads cs h hh)
    | none =>
      rw [hc] at hcl
      exact Or.inr (removeTagsList_clean bad bads cs h hcl)
end

theorem cleanAnchor_of_mem_stripTree (n : Node) (h : Href)
    (hmem : h ∈ findAnchors (stripTree n)) :
    hasCleanAnchor badSectionTags h n = true := by
  unfold stripTree at hmem
  cases h1 : removeTags nonContentTags n with
  | none => rw [h1] at hmem; simp [emptyDoc, findAnchors, Option.bind] at hmem
  | some n1 =>
    rw [h1] at hmem
    simp only [Option.bind] at hmem
    cases h2 : removeTags boilerplateTags n1 with
    | none => rw [h2] at hmem; simp [emptyDoc, findAnchors, Option.bind] at hmem
    | some n2 =>
      rw [h2] at hmem
      simp only [Option.bind] at hmem
      cases h3 : imgPass n2 with
      | none => rw [h3] at hmem; simp [emptyDoc, findAnchors, Option.bind] at hmem
      | some n3 =>
        rw [h3] at hmem
        simp only [Option.bind] at hmem
        cases h4 : stripComments n3 with
        | none => rw [h4] at hmem; simp [emptyDoc, findAnchors] at hmem
        | some n4 =>
          rw [h4] at hmem
          simp only [] at hmem
          rw [stripComments_anchors n3 n4 h4] at hmem
          have c2 : hasCleanAnchor [] h n2 = true := imgPass_clean n2 n3 h h3 hmem
          have c1 := removeTags_clean boilerplateTags [] n1 n2 h h2 c2
          rw [List.append_nil] at c1
          have c0 := removeTags_clean nonContentTags boilerplateTags n n1 h h1 c1
          simpa [badSectionTags] using c0

/-- A page as `_scrape` hands it to `data_handler` on the default-extractor
path: its `soup` field is the stripped parse tree of its raw markup (the
in-place mutation of `extract_page_text`), its links are the default
extraction over that stripped tree, and every link resolves an anchor href
that is reachable outside every region `extract_page_text` removes. -/
def GoodPage (p : ScrapedPage) : Prop :=
  p.soup = stripTree p.html ∧
  p.links = default_link_extractor p ∧
  ∀ l ∈ p.links, ∃ h : Href, h ∈ findAnchors p.soup ∧ l = urljoin p.url h ∧
    hasCleanAnchor badSectionTags h p.html = true

theorem goodPage_of (p : ScrapedPage) (h1 : p.soup = stripTree p.html)
    (h2 : p.links = default_link_extractor p) : GoodPage p := by
  refine ⟨h1, h2, ?_⟩
  intro l hl
  rw [h2] at hl
  simp only [default_link_extractor, List.mem_filter, List.mem_map] at hl
  obtain ⟨⟨h, hh, rfl⟩, _⟩ := hl
  refine ⟨h, hh, rfl, ?_⟩
  rw [h1] at hh
  exact cleanAnchor_of_mem_stripTree p.html h hh

theorem processResponse_good (env : CrawlEnv) (u : Url) (status : Nat) (ctype : String)
    (soup : Node) (lm : Option (Option Int)) (st : CrawlState)
    (hext : env.linkExtractor = none) :
    ∀ p ∈ (processResponse env u status ctype soup lm st).1.dataLog,
      p ∈ st.dataLog ∨ GoodPage p := by
  unfold processResponse
  rw [hext]
  repeat' first | dsimp only | split
  all_goals intro p hp
  all_goals first
    | exact Or.inl hp
    | (rcases List.mem_append.mp hp with hmem | hmem
       · exact Or.inl hmem
       · exact Or.inr (by rw [List.mem_singleton.mp hmem]; exact goodPage_of _ rfl rfl))

theorem stepCore_good (env : CrawlEnv) (hext : env.linkExtractor = none)
    (d : Nat) (u : Url) (st : CrawlState)
    (h : ∀ p ∈ st.dataLog, GoodPage p) :
    ∀ p ∈ (stepCore env d u st).1.dataLog, GoodPage p := by
  unfold stepCore
  repeat' first | split | dsimp only
  all_goals first
    | exact h
    | (intro p hp
       rcases processResponse_good env u _ _ _ _ _ hext p hp with hmem | hg
       · exact h p hmem
       · exact hg)

theorem processResponse_not_escaped (env : CrawlEnv) (u : Url) (status : Nat)
    (ctype : String) (soup : Node) (lm : Option (Option Int)) (st : CrawlState) :
    (processResponse env u status ctype soup lm st).2 ≠ StepOutcome.escaped := by
  unfold processResponse
  repeat' first | dsimp only | split
  all_goals intro h
  all_goals nomatch h

theorem stepCore_not_escaped (env : CrawlEnv) (hstop : env.stopHandler = none)
    (d : Nat) (u : Url) (st : CrawlState) :
    (stepCore env d u st).2 ≠ StepOutcome.escaped := by
  unfold stepCore
  rw [hstop]
  dsimp only
  repeat' first | dsimp only | split
  all_goals first
    | exact processResponse_not_escaped env u _ _ _ _ _
    | (intro h; nomatch h)

theorem scrapeVisit_no_escape (env : CrawlEnv) (hstop : env.stopHandler = none)
    (d : Nat) (u : Url) (st : CrawlState) :
    (scrapeVisit env d u st).2 = false := by
  have hne := stepCore_not_escaped env hstop d u st
  cases d with
  | zero =>
    simp only [scrapeVisit, stepNoRec]
    rcases hsc : stepCore env 0 u st with ⟨st1, out⟩
    rw [hsc] at hne
    cases out with
    | escaped => exact absurd rfl hne
    | abandoned => rfl
    | expand payload => rfl
  | succ d1 =>
    cases d1 with
    | zero =>
      simp only [scrapeVisit, stepNoRec]
      rcases hsc : stepCore env 1 u st with ⟨st1, out⟩
      rw [hsc] at hne
      cases out with
      | escaped => exact absurd rfl hne
      | abandoned => rfl
      | expand payload => rfl
    | succ k =>
      simp only [scrapeVisit]
      rcases hsc : stepCore env (k + 2) u st with ⟨st1, out⟩
      rw [hsc] at hne
      cases out with
      | escaped => exact absurd rfl hne
      | abandoned => rfl
      | expand payload => rfl

theorem scrapeVisit_no_expand (env : CrawlEnv) (d : Nat) (u : Url) (st : CrawlState)
    (hne : ∀ pl, (stepCore env d u st).2 ≠ StepOutcome.expand pl) :
    (scrapeVisit env d u st).1 = (stepCore env d u st).1 := by
  cases d with
  | zero => rw [show scrapeVisit env 0 u st = stepNoRec env 0 u st from rfl, stepNoRec_fst]
  | succ d1 =>
    cases d1 with
    | zero => rw [show scrapeVisit env 1 u st = stepNoRec env 1 u st from rfl, stepNoRec_fst]
    | succ k =>
      simp only [scrapeVisit]
      rcases hsc : stepCore env (k + 2) u st with ⟨st1, out⟩
      rw [hsc] at hne
      cases out with
      | escaped => rfl
      | abandoned => rfl
      | expand payload => exact absurd rfl (hne payload)

theorem stepCore_fail (env : CrawlEnv) (d : Nat) (u : Url) (st : CrawlState)
    (hfail : env.world u = FetchResult.failure) :
    (stepCore env d u st).1.dataLog = st.dataLog ∧
      ∀ pl, (stepCore env d u st).2 ≠ StepOutcome.expand pl := by
  unfold stepCore
  rw [hfail]
  repeat' first | dsimp only | split
  all_goals exact ⟨rfl, fun pl h => nomatch h⟩

theorem stepCore_http_error (env : CrawlEnv) (d : Nat) (u : Url) (st : CrawlState)
    (status : Nat) (ctype : String) (soup : Node) (lm : Option (Option Int))
    (hresp : env.world u = FetchResult.response status ctype soup lm)
    (hstatus : 400 ≤ status) :
    (stepCore env d u st).1.dataLog = st.dataLog ∧
      ∀ pl, (stepCore env d u st).2 ≠ StepOutcome.expand pl := by
  unfold stepCore
  rw [hresp]
  repeat' first | dsimp only | split
  all_goals first
    | exact ⟨rfl, fun pl h => nomatch h⟩
    | (unfold processResponse
       rw [if_pos hstatus]
       exact ⟨rfl, fun pl h => nomatch h⟩)

theorem processResponse_stale (env : CrawlEnv) (u : Url) (status : Nat) (ctype : String)
    (soup : Node) (st : CrawlState) (s t : Int)
    (hsince : env.sinceUtc = some s) (hlt : t < s) :
    processResponse env u status ctype soup (some (some t)) st = (st, StepOutcome.abandoned) := by
  unfold processResponse
  split
  · rfl
  · split
    · rfl
    · dsimp only
      rw [hsince]
      simp [hlt]

theorem stepCore_stale (env : CrawlEnv) (d : Nat) (u : Url) (st : CrawlState)
    (status : Nat) (ctype : String) (soup : Node) (s t : Int)
    (hresp : env.world u = FetchResult.response status ctype soup (some (some t)))
    (hsince : env.sinceUtc = some s) (hlt : t < s) :
    (stepCore env d u st).1.dataLog = st.dataLog ∧
      ∀ pl, (stepCore env d u st).2 ≠ StepOutcome.expand pl := by
  unfold stepCore
  rw [hresp]
  repeat' first | dsimp only | split
  all_goals first
    | exact ⟨rfl, fun pl h => nomatch h⟩
    | (rw [processResponse_stale env u status ctype soup _ s t hsince hlt]
       exact ⟨rfl, fun pl h => nomatch h⟩)

theorem stepCore_reports (env : CrawlEnv) (d : Nat) (u : Url) (st : CrawlState)
    (status : Nat) (ctype : String) (soup : Node)
    (hstop : env.stopHandler = none) (hvis : u ∉ st.visited)
    (hresp : env.world u = FetchResult.response status ctype soup none)
    (hstatus : status < 400) (hctype : ctype ∈ htmlContentTypes)
    (hext : env.linkExtractor = none) :
    ∃ p : ScrapedPage,
      (stepCore env d u st).1.dataLog = st.dataLog ++ [p] ∧
      (stepCore env d u st).1.fetchLog = st.fetchLog ++ [u] ∧
      p.url = u ∧ p.lastModified = none := by
  unfold stepCore
  rw [hstop]
  dsimp only
  rw [if_neg hvis, hresp]
  dsimp only
  unfold processResponse
  rw [if_neg (by omega : ¬ 400 ≤ status), if_neg (not_not_intro hctype)]
  dsimp only
  simp only [Option.isSome_none, Bool.false_and]
  rw [if_neg Bool.false_ne_true, hext]
  dsimp only
  split
  · exact ⟨_, rfl, rfl, rfl, rfl⟩
  · exact ⟨_, rfl, rfl, rfl, rfl⟩
  · exact ⟨_, rfl, rfl, rfl, rfl⟩

theorem stepCore_stop_error (env : CrawlEnv) (d : Nat) (u : Url) (st : CrawlState)
    (sh : Url → Nat → List Url → Except Unit Bool)
    (hsh : env.stopHandler = some sh) (herr : sh u d st.visited = Except.error ()) :
    stepCore env d u st = (st, StepOutcome.escaped) := by
  unfold stepCore
  rw [hsh]
  dsimp only
  rw [herr]

theorem scrapeVisit_stop_error (env : CrawlEnv) (d : Nat) (u : Url) (st : CrawlState)
    (sh : Url → Nat → List Url → Except Unit Bool)
    (hsh : env.stopHandler = some sh) (herr : sh u d st.visited = Except.error ()) :
    scrapeVisit env d u st = (st, true) := by
  have hsc := stepCore_stop_error env d u st sh hsh herr
  cases d with
  | zero => simp only [scrapeVisit, stepNoRec, hsc]
  | succ d1 =>
    cases d1 with
    | zero => simp only [scrapeVisit, stepNoRec, hsc]
    | succ k => simp only [scrapeVisit, hsc]

theorem processResponse_handler_error (env : CrawlEnv) (u : Url) (status : Nat)
    (ctype : String) (soup : Node) (lm : Option (Option Int)) (st : CrawlState)
    (hd : env.dataHandler = fun _ => Except.error ()) :
    ∀ pl, (processResponse env u status ctype soup lm st).2 ≠ StepOutcome.expand pl := by
  unfold processResponse
  rw [hd]
  repeat' first | dsimp only | split
  all_goals (intro pl h; nomatch h)

theorem stepCore_handler_error (env : CrawlEnv) (d : Nat) (u : Url) (st : CrawlState)
    (hd : env.dataHandler = fun _ => Except.error ()) :
    ∀ pl, (stepCore env d u st).2 ≠ StepOutcome.expand pl := by
  unfold stepCore
  repeat' first | dsimp only | split
  all_goals first
    | exact processResponse_handler_error env u _ _ _ _ _ hd
    | (intro pl h; nomatch h)

theorem processResponse_extractor_error (env : CrawlEnv) (u : Url) (status : Nat)
    (ctype : String) (soup : Node) (lm : Option (Option Int)) (st : CrawlState)
    (hle : env.linkExtractor = some (fun _ => Except.error ())) :
    (processResponse env u status ctype soup lm st).1.dataLog = st.dataLog ∧
      ∀ pl, (processResponse env u status ctype soup lm st).2 ≠ StepOutcome.expand pl := by
  unfold processResponse
  rw [hle]
  repeat' first | dsimp only | split
  all_goals exact ⟨rfl, fun pl h => nomatch h⟩

theorem stepCore_extractor_error (env : CrawlEnv) (d : Nat) (u : Url) (st : CrawlState)
    (hle : env.linkExtractor = some (fun _ => Except.error ())) :
    (stepCore env d u st).1.dataLog = st.dataLog ∧
      ∀ pl, (stepCore env d u st).2 ≠ StepOutcome.expand pl := by
  unfold stepCore
  repeat' first | dsimp only | split
  all_goals first
    | exact ⟨rfl, fun pl h => nomatch h⟩
    | exact processResponse_extractor_error env u _ _ _ _ _ hle

theorem scrapeChildren_escalate (visit : Url → CrawlState → CrawlState × Bool)
    (keep : Url → Bool) (oh : String) (next : Url) (rest : List Url) (st : CrawlState)
    (hkeep : keep next = true) (hhost : next.host = oh) (hvis : next ∉ st.visited)
    (hesc : (visit next st).2 = true) :
    scrapeChildren visit keep oh (next :: rest) st = visit next st := by
  simp only [scrapeChildren]
  rw [if_pos ⟨hkeep, hhost, hvis⟩, if_pos hesc]

/-- Host used by the concrete test fixtures. -/
def exHost : String := "site.example"

/-- The start URL of the fixtures. -/
def exRoot : Url := ⟨"http", exHost, "/", ""⟩

/-- The start URL with fragment `f` (what `urljoin` produces for `#f`). -/
def exFrag : Url := ⟨"http", exHost, "/", "f"⟩

/-- First same-host child URL. -/
def exChild1 : Url := ⟨"http", exHost, "/c1", ""⟩

/-- Second same-host child URL. -/
def exChild2 : Url := ⟨"http", exHost, "/c2", ""⟩

/-- An anchor element with the given href. -/
def exAnchor (h : Href) : Node := .elem "a" { href := some h } .nil

/-- A document root with the given children. -/
def exDoc (cs : NodeList) : Node := .elem "[document]" {} cs

/-- A page whose only link is the fragment-only reference `#f`. -/
def exFragPage : Node := exDoc (.cons (exAnchor (Href.fragOnly "f")) .nil)

/-- A page linking to the two same-host children. -/
def exTwoChildPage : Node :=
  exDoc (.cons (exAnchor (.abs exChild1)) (.cons (exAnchor (.abs exChild2)) .nil))

/-- A page with no links. -/
def exPlainPage : Node := exDoc .nil

/-- A network serving the same HTML document for every URL. -/
def exWorldConst (n : Node) : Url → FetchResult :=
  fun _ => FetchResult.response 200 "text/html" n none

/-- A crawl environment with the given network and trivial callbacks. -/
def exEnvBase (w : Url → FetchResult) : CrawlEnv :=
  { world := w, dataHandler := fun _ => Except.ok true,
    stopHandler := none, linkExtractor := none, urlRegex := none, sinceUtc := none }

/-- Environment whose stop handler raises on `exChild1`. -/
def exStopThrow : CrawlEnv :=
  { world := exWorldConst exTwoChildPage,
    dataHandler := fun _ => Except.ok true,
    stopHandler := some (fun v _ _ => if v = exChild1 then Except.error () else Except.ok false),
    linkExtractor := none, urlRegex := none, sinceUtc := none }

/-- Environment whose data handler always raises. -/
def exEnvDHThrow : CrawlEnv :=
  { exEnvBase (exWorldConst exTwoChildPage) with dataHandler := fun _ => Except.error () }

/-- Environment whose custom link extractor always raises. -/
def exEnvLEThrow : CrawlEnv :=
  { exEnvBase (exWorldConst exTwoChildPage) with linkExtractor := some (fun _ => Except.error ()) }

/-- Environment with a freshness cutoff of 10 whose pages carry
Last-Modified timestamp 5. -/
def exStaleEnv : CrawlEnv :=
  { exEnvBase (fun _ => FetchResult.response 200 "text/html" exPlainPage (some (some 5))) with
    sinceUtc := some 10 }

/-- A network answering every URL with HTTP 404 (raise_for_status raises). -/
def exEnv404 : CrawlEnv :=
  exEnvBase (fun _ => FetchResult.response 404 "text/html" exPlainPage none)

/-- A page whose only anchor (to `exChild1`) sits inside a `nav` region. -/
def exNavPage : Node :=
  exDoc (.cons (.elem "nav" {} (.cons (exAnchor (.abs exChild1)) .nil)) .nil)

/-- Environment crawling `exNavPage` with the interactive baseline
extractor installed as the custom `link_extractor`. -/
def exEnvInteractive : CrawlEnv :=
  { exEnvBase (exWorldConst exNavPage) with
    linkExtractor := some interactiveBaselineExtractor }

/-- A page containing the same anchor twice. -/
def exDupPage : Node :=
  exDoc (.cons (exAnchor (.abs exChild1)) (.cons (exAnchor (.abs exChild1)) .nil))

/-- A `ScrapedPage` wrapping `exDupPage`. -/
def exDupScrapedPage : ScrapedPage :=
  { url := exRoot, status := 200, success := true, html := exDupPage, text := "",
    soup := exDupPage, lastModified := none, title := none, links := [] }

/-- C1 (counterexample): with a page that links to its own fragment `#f`,
the crawl fetches both `/` and `/#f` — two fetches of the same
fragment-stripped URL.  The scheduler performs no fragment normalization
before consulting the visited set, refuting the claim as stated. -/
theorem c1_counterexample :
    ((scrape_website (exEnvBase (exWorldConst exFragPage)) exRoot 2).1.fetchLog.filter
        (fun v => decide (urldefrag v = urldefrag exRoot))).length = 2 := by decide

/-- C1 (amended): each exact URL string is fetched at most once per crawl:
the fetch log never contains a duplicate.  The visited-set membership test
and the insert are two separate operations in the source (lines 198-200),
not one atomic test-and-insert, but the sequential recursion still yields
exact-URL at-most-once; URLs differing only in their fragment are fetched
separately. -/
theorem c1_fetch_at_most_once (env : CrawlEnv) (u : Url) (d : Nat) :
    ((scrape_website env u d).1.fetchLog).Nodup := by
  have h := scrapeVisit_pres env FetchInv
    (fun d2 u2 s2 hs => stepCore_fetchInv env d2 u2 s2 hs)
    d u { visited := [], fetchLog := [], dataLog := [] }
    ⟨List.nodup_nil, fun v hv => absurd hv (List.not_mem_nil v)⟩
  exact h.1

/-- C2 (counterexample): when the only fetch fails, `data_handler` is never
invoked — the claim asserts exactly one invocation with an empty failed
page, but the step is abandoned with only a log line. -/
theorem c2_counterexample :
    (scrape_website (exEnvBase (fun _ => FetchResult.failure)) exRoot 3).1.fetchLog = [exRoot] ∧
    (scrape_website (exEnvBase (fun _ => FetchResult.failure)) exRoot 3).1.dataLog.length = 0 := by
  decide

/-- C2 (amended): a fetch failure — a transport error (network error or
timeout) or a status ≥ 400 that `raise_for_status` turns into an exception
— is caught at the step boundary: the step ends with no `data_handler`
invocation at all and, absent a stop handler, without aborting the crawl. -/
theorem c2_fetch_failure_silent (env : CrawlEnv) (d : Nat) (u : Url) (st : CrawlState)
    (hstop : env.stopHandler = none)
    (hfail : env.world u = FetchResult.failure ∨
      ∃ (status : Nat) (ctype : String) (soup : Node) (lm : Option (Option Int)),
        env.world u = FetchResult.response status ctype soup lm ∧ 400 ≤ status) :
    (scrapeVisit env d u st).1.dataLog = st.dataLog ∧
    (scrapeVisit env d u st).2 = false := by
  have hf : (stepCore env d u st).1.dataLog = st.dataLog ∧
      ∀ pl, (stepCore env d u st).2 ≠ StepOutcome.expand pl := by
    rcases hfail with hfail | ⟨status, ctype, soup, lm, hresp, hstatus⟩
    · exact stepCore_fail env d u st hfail
    · exact stepCore_http_error env d u st status ctype soup lm hresp hstatus
  have h1 := scrapeVisit_no_expand env d u st hf.2
  exact ⟨by rw [h1, hf.1], scrapeVisit_no_escape env hstop d u st⟩

/-- C2 (witness): both failure shapes — a raised transport error and a 404
response — leave the data log untouched and the crawl alive. -/
theorem c2_witness :
    ((scrapeVisit (exEnvBase (fun _ => FetchResult.failure)) 3 exRoot ⟨[], [], []⟩).1.dataLog = [] ∧
      (scrapeVisit (exEnvBase (fun _ => FetchResult.failure)) 3 exRoot ⟨[], [], []⟩).2 = false) ∧
    ((scrapeVisit exEnv404 3 exRoot ⟨[], [], []⟩).1.dataLog = [] ∧
      (scrapeVisit exEnv404 3 exRoot ⟨[], [], []⟩).2 = false) :=
  ⟨c2_fetch_failure_silent _ 3 exRoot ⟨[], [], []⟩ rfl (Or.inl rfl),
   c2_fetch_failure_silent exEnv404 3 exRoot ⟨[], [], []⟩ rfl
     (Or.inr ⟨404, "text/html", exPlainPage, none, rfl, by omega⟩)⟩

/-- C3: every URL the crawl fetches has the start URL's host; a candidate
whose host differs from the start host is never fetched at any depth (the
code filters against the hosting page's host, which by induction always
equals the start host). -/
theorem c3_same_host (env : CrawlEnv) (u : Url) (d : Nat) :
    ∀ w ∈ (scrape_website env u d).1.fetchLog, w.host = u.host := by
  intro w hw
  rcases scrapeVisit_host env d u _ w hw with h | h
  · exact absurd h (List.not_mem_nil w)
  · exact h

/-- C3 (witness). -/
theorem c3_witness :
    exFrag.host = exRoot.host ∧
    exFrag ∈ (scrape_website (exEnvBase (exWorldConst exFragPage)) exRoot 2).1.fetchLog :=
  ⟨c3_same_host (exEnvBase (exWorldConst exFragPage)) exRoot 2 exFrag (by decide), by decide⟩

/-- C4 (counterexample): a `stop_handler` exception is not caught at its own
step: raised while visiting the first child it aborts the parent's loop, so
the already-scheduled sibling `exChild2` is never fetched; raised at the
root it propagates out of the whole crawl (escape flag `true`). -/
theorem c4_counterexample :
    (scrape_website exStopThrow exRoot 2).1.fetchLog = [exRoot] ∧
    (scrape_website
        { exStopThrow with stopHandler := some (fun _ _ _ => Except.error ()) }
        exRoot 2).2 = true := by
  decide

/-- C4 (amended): exceptions from `data_handler` and from a custom link
extractor are caught at the step boundary — the step ends normally with no
recursion (and, for the extractor, no report) — but a `stop_handler`
exception is NOT caught by its own step: `_scrape` returns it as a
propagating exception, and a child step whose visit propagates an
exception terminates the parent's sibling loop at that point. -/
theorem c4_exception_boundaries :
    (∀ (env : CrawlEnv) (d : Nat) (u : Url) (st : CrawlState),
        env.dataHandler = (fun _ => Except.error ()) → env.stopHandler = none →
        (scrapeVisit env d u st).2 = false ∧
        ((scrapeVisit env d u st).1.fetchLog = st.fetchLog ∨
          (scrapeVisit env d u st).1.fetchLog = st.fetchLog ++ [u])) ∧
    (∀ (env : CrawlEnv) (d : Nat) (u : Url) (st : CrawlState),
        env.linkExtractor = some (fun _ => Except.error ()) → env.stopHandler = none →
        (scrapeVisit env d u st).1.dataLog = st.dataLog ∧
        (scrapeVisit env d u st).2 = false) ∧
    (∀ (env : CrawlEnv) (d : Nat) (u : Url) (st : CrawlState)
        (sh : Url → Nat → List Url → Except Unit Bool),
        env.stopHandler = some sh → sh u d st.visited = Except.error () →
        scrapeVisit env d u st = (st, true)) ∧
    (∀ (visit : Url → CrawlState → CrawlState × Bool) (keep : Url → Bool) (oh : String)
        (next : Url) (rest : List Url) (st : CrawlState),
        keep next = true → next.host = oh → next ∉ st.visited →
        (visit next st).2 = true →
        scrapeChildren visit keep oh (next :: rest) st = visit next st) := by
  refine ⟨?_, ?_, ?_, ?_⟩
  · intro env d u st hd hstop
    refine ⟨scrapeVisit_no_escape env hstop d u st, ?_⟩
    have hne := stepCore_handler_error env d u st hd
    rw [scrapeVisit_no_expand env d u st hne]
    rcases stepCore_state env d u st with ⟨_, hf⟩ | ⟨_, _, hf⟩
    · exact Or.inl hf
    · exact Or.inr hf
  · intro env d u st hle hstop
    have he := stepCore_extractor_error env d u st hle
    have h1 := scrapeVisit_no_expand env d u st he.2
    exact ⟨by rw [h1, he.1], scrapeVisit_no_escape env hstop d u st⟩
  · intro env d u st sh hsh herr
    exact scrapeVisit_stop_error env d u st sh hsh herr
  · intro visit keep oh next rest st h1 h2 h3 h4
    exact scrapeChildren_escalate visit keep oh next rest st h1 h2 h3 h4

/-- C4 (witness). -/
theorem c4_witness :
    ((scrapeVisit exEnvDHThrow 2 exRoot ⟨[], [], []⟩).2 = false ∧
      ((scrapeVisit exEnvDHThrow 2 exRoot ⟨[], [], []⟩).1.fetchLog = [] ∨
        (scrapeVisit exEnvDHThrow 2 exRoot ⟨[], [], []⟩).1.fetchLog = [] ++ [exRoot])) ∧
    ((scrapeVisit exEnvLEThrow 2 exRoot ⟨[], [], []⟩).1.dataLog = [] ∧
      (scrapeVisit exEnvLEThrow 2 exRoot ⟨[], [], []⟩).2 = false) ∧
    scrapeVisit exStopThrow 2 exChild1 ⟨[], [], []⟩ = (⟨[], [], []⟩, true) ∧
    scrapeChildren (fun _ s => (s, true)) (fun _ => true) exHost [exChild2] ⟨[], [], []⟩ =
      (⟨[], [], []⟩, true) :=
  ⟨c4_exception_boundaries.1 exEnvDHThrow 2 exRoot ⟨[], [], []⟩ rfl rfl,
   c4_exception_boundaries.2.1 exEnvLEThrow 2 exRoot ⟨[], [], []⟩ rfl rfl,
   c4_exception_boundaries.2.2.1 exStopThrow 2 exChild1 ⟨[], [], []⟩ _ rfl rfl,
   c4_exception_boundaries.2.2.2 (fun _ s => (s, true)) (fun _ => true) exHost exChild2 []
     ⟨[], [], []⟩ rfl rfl (by decide) rfl⟩

/-- C5 (counterexample): a crawl started with depth 0 (i.e. < 1) does not
return immediately: it still fetches the start URL and reports it to
`data_handler` (there is no entry guard on the depth; only recursion is
gated by `current_depth > 1`). -/
theorem c5_counterexample :
    (scrape_website (exEnvBase (exWorldConst exPlainPage)) exRoot 0).1.fetchLog = [exRoot] ∧
    (scrape_website (exEnvBase (exWorldConst exPlainPage)) exRoot 0).1.dataLog.length = 1 := by
  decide

/-- C5 (amended): a step entered with depth 1 fetches and reports without
recursing, and a crawl started with depth < 1 behaves the same instead of
returning early: visits at depth 0 and 1 are exactly the non-recursive
step core, and under normal fetch conditions a depth ≤ 1 visit still
issues the fetch and reports the page. -/
theorem c5_depth_semantics :
    (∀ (env : CrawlEnv) (u : Url) (st : CrawlState),
        scrapeVisit env 0 u st = stepNoRec env 0 u st ∧
        scrapeVisit env 1 u st = stepNoRec env 1 u st) ∧
    (∀ (env : CrawlEnv) (u : Url) (st : CrawlState) (d status : Nat)
        (ctype : String) (soup : Node),
        d ≤ 1 →
        env.stopHandler = none → u ∉ st.visited →
        env.world u = FetchResult.response status ctype soup none →
        status < 400 → ctype ∈ htmlContentTypes → env.linkExtractor = none →
        (scrapeVisit env d u st).1.fetchLog = st.fetchLog ++ [u] ∧
        ∃ p : ScrapedPage,
          (scrapeVisit env d u st).1.dataLog = st.dataLog ++ [p] ∧ p.url = u) := by
  constructor
  · intro env u st
    exact ⟨rfl, rfl⟩
  · intro env u st d status ctype soup hd hstop hvis hresp hstatus hctype hext
    obtain ⟨p, h1, h2, h3, _⟩ :=
      stepCore_reports env d u st status ctype soup hstop hvis hresp hstatus hctype hext
    have hfst : (scrapeVisit env d u st).1 = (stepCore env d u st).1 := by
      cases d with
      | zero => rw [show scrapeVisit env 0 u st = stepNoRec env 0 u st from rfl, stepNoRec_fst]
      | succ d1 =>
        cases d1 with
        | zero => rw [show scrapeVisit env 1 u st = stepNoRec env 1 u st from rfl, stepNoRec_fst]
        | succ k => omega
    rw [hfst]
    exact ⟨h2, p, h1, h3⟩

/-- C5 (witness). -/
theorem c5_witness :
    (scrapeVisit (exEnvBase (exWorldConst exPlainPage)) 0 exRoot ⟨[], [], []⟩).1.fetchLog =
      [] ++ [exRoot] ∧
    ∃ p : ScrapedPage,
      (scrapeVisit (exEnvBase (exWorldConst exPlainPage)) 0 exRoot ⟨[], [], []⟩).1.dataLog =
        [] ++ [p] ∧ p.url = exRoot :=
  c5_depth_semantics.2 (exEnvBase (exWorldConst exPlainPage)) exRoot ⟨[], [], []⟩ 0 200
    "text/html" exPlainPage (by decide) rfl (by decide) rfl (by decide) (by decide) rfl

/-- C6: the freshness filter: when `since` is set and a fetched page's
parsed Last-Modified timestamp is strictly earlier, the step is abandoned
with no `data_handler` invocation and no recursion (the fetch log grows by
at most the page itself); a page whose response carries no Last-Modified
header is never filtered — the step still reports it to `data_handler`
with `lastModified = none`. -/
theorem c6_freshness (env : CrawlEnv) (d : Nat) (u : Url) (st : CrawlState) :
    (∀ (status : Nat) (ctype : String) (soup : Node) (s t : Int),
        env.world u = FetchResult.response status ctype soup (some (some t)) →
        env.sinceUtc = some s → t < s →
        (scrapeVisit env d u st).1.dataLog = st.dataLog ∧
        ((scrapeVisit env d u st).1.fetchLog = st.fetchLog ∨
          (scrapeVisit env d u st).1.fetchLog = st.fetchLog ++ [u])) ∧
    (∀ (status : Nat) (ctype : String) (soup : Node),
        env.stopHandler = none → u ∉ st.visited →
        env.world u = FetchResult.response status ctype soup none →
        status < 400 → ctype ∈ htmlContentTypes → env.linkExtractor = none →
        ∃ p : ScrapedPage,
          (stepCore env d u st).1.dataLog = st.dataLog ++ [p] ∧
          p.url = u ∧ p.lastModified = none) := by
  constructor
  · intro status ctype soup s t hresp hsince hlt
    have hs := stepCore_stale env d u st status ctype soup s t hresp hsince hlt
    have h1 := scrapeVisit_no_expand env d u st hs.2
    refine ⟨by rw [h1, hs.1], ?_⟩
    rw [h1]
    rcases stepCore_state env d u st with ⟨_, hf⟩ | ⟨_, _, hf⟩
    · exact Or.inl hf
    · exact Or.inr hf
  · intro status ctype soup hstop hvis hresp hstatus hctype hext
    obtain ⟨p, h1, _, h3, h4⟩ :=
      stepCore_reports env d u st status ctype soup hstop hvis hresp hstatus hctype hext
    exact ⟨p, h1, h3, h4⟩

/-- C6 (witness): a page last modified at time 5 against a cutoff of 10 is
silently skipped; the same page without the header is reported. -/
theorem c6_witness :
    ((scrapeVisit exStaleEnv 3 exRoot ⟨[], [], []⟩).1.dataLog = [] ∧
      ((scrapeVisit exStaleEnv 3 exRoot ⟨[], [], []⟩).1.fetchLog = [] ∨
        (scrapeVisit exStaleEnv 3 exRoot ⟨[], [], []⟩).1.fetchLog = [] ++ [exRoot])) ∧
    (∃ p : ScrapedPage,
      (stepCore (exEnvBase (exWorldConst exPlainPage)) 3 exRoot ⟨[], [], []⟩).1.dataLog =
        [] ++ [p] ∧ p.url = exRoot ∧ p.lastModified = none) :=
  ⟨(c6_freshness exStaleEnv 3 exRoot ⟨[], [], []⟩).1 200 "text/html" exPlainPage 10 5
      rfl rfl (by decide),
   (c6_freshness (exEnvBase (exWorldConst exPlainPage)) 3 exRoot ⟨[], [], []⟩).2 200
      "text/html" exPlainPage rfl (by decide) rfl (by decide) (by decide) rfl⟩

/-- C7 (counterexample): `web_crawler.default_link_extractor` keeps
duplicates: on a page with two identical anchors it returns the resolved
URL twice, so it does not return the claimed de-duplicated list. -/
theorem c7_counterexample :
    default_link_extractor exDupScrapedPage = [exChild1, exChild1] ∧
    ¬ (default_link_extractor exDupScrapedPage).Nodup := by decide

/-- C7 (amended): only `playwright_adapter._resolve_links` implements the
full claimed contract — anchors in document order, empty hrefs skipped,
resolved against the base URL, restricted to http/https, de-duplicated
keeping the first occurrence: its output is duplicate-free, is an
order-preserving sublist of the resolved-and-filtered anchor stream, and
contains exactly its members.  `web_crawler.default_link_extractor`
resolves and filters in order but keeps duplicates, and the interactive
extractor's baseline de-duplicates (first occurrence) but returns raw,
unresolved and unfiltered hrefs of the re-parsed raw markup. -/
theorem c7_extractors :
    (∀ (soup : Node) (base : Url),
        (PlaywrightAdapter._resolve_links soup base).Nodup ∧
        (PlaywrightAdapter._resolve_links soup base).Sublist
          ((((findAnchors soup).filter (fun h => ¬ h.isEmptyStr = true)).map
              (urljoin base)).filter
            (fun v => v.scheme = "http" ∨ v.scheme = "https")) ∧
        (∀ v : Url, v ∈ PlaywrightAdapter._resolve_links soup base ↔
          v ∈ (((findAnchors soup).filter (fun h => ¬ h.isEmptyStr = true)).map
              (urljoin base)).filter
            (fun v2 => v2.scheme = "http" ∨ v2.scheme = "https"))) ∧
    (∀ p : ScrapedPage,
        (InteractiveLinkExtractor.default_link_extractor p).Nodup ∧
        ∀ h : Href, h ∈ InteractiveLinkExtractor.default_link_extractor p ↔
          h ∈ findAnchors p.html) := by
  constructor
  · intro soup base
    exact ⟨nodup_dedupFirst _, dedupFirst_sublist _, fun v => mem_dedupFirst _ v⟩
  · intro p
    exact ⟨nodup_dedupFirst _, fun h => mem_dedupFirst _ h⟩

/-- C8: in `_apply_pagination` the number of clicks never exceeds
`max_clicks`; when `stop_if_no_new_links` is set a click contributing zero
new links ends the loop immediately (that click is still counted, the
total is unchanged); and every link present in the working list when
pagination begins is still in `final_links`. -/
theorem c8_pagination_bounds :
    (∀ (collect : Nat → Option (List Url))
        (cfg : InteractiveLinkExtractor.PaginationConfig) (w : List Url),
        (InteractiveLinkExtractor._apply_pagination collect cfg w).clicks ≤ cfg.max_clicks) ∧
    (∀ (collect : Nat → Option (List Url)) (rem clicks t : Nat) (w ls : List Url),
        collect clicks = some ls →
        InteractiveLinkExtractor.newLinkCount
          (InteractiveLinkExtractor.appendNew w ls) w = 0 →
        InteractiveLinkExtractor.paginationLoop collect true (Nat.succ rem) clicks t w =
          ⟨clicks + 1, t, InteractiveLinkExtractor.appendNew w ls⟩) ∧
    (∀ (collect : Nat → Option (List Url))
        (cfg : InteractiveLinkExtractor.PaginationConfig) (w : List Url) (x : Url),
        x ∈ w →
        x ∈ (InteractiveLinkExtractor._apply_pagination collect cfg w).final_links) := by
  refine ⟨?_, ?_, ?_⟩
  · intro collect cfg w
    simpa using InteractiveLinkExtractor.paginationLoop_clicks_le collect
      cfg.stop_if_no_new_links cfg.max_clicks 0 0 w
  · intro collect rem clicks t w ls hc hd
    simp [InteractiveLinkExtractor.paginationLoop, hc, hd]
  · intro collect cfg w x hx
    exact InteractiveLinkExtractor.paginationLoop_superset collect
      cfg.stop_if_no_new_links cfg.max_clicks 0 0 w x hx

/-- C8 (witness). -/
theorem c8_witness :
    (InteractiveLinkExtractor._apply_pagination (fun _ => some [exChild1])
        ⟨3, true⟩ [exChild1]).clicks ≤ 3 ∧
    InteractiveLinkExtractor.paginationLoop (fun _ => some [exChild1]) true 3 0 0 [exChild1] =
      ⟨1, 0, InteractiveLinkExtractor.appendNew [exChild1] [exChild1]⟩ ∧
    exChild1 ∈ (InteractiveLinkExtractor._apply_pagination (fun _ => some [exChild1])
        ⟨3, true⟩ [exChild1]).final_links :=
  ⟨c8_pagination_bounds.1 (fun _ => some [exChild1]) ⟨3, true⟩ [exChild1],
   c8_pagination_bounds.2.1 (fun _ => some [exChild1]) 2 0 0 [exChild1] [exChild1] rfl (by decide),
   c8_pagination_bounds.2.2 (fun _ => some [exChild1]) ⟨3, true⟩ [exChild1] exChild1 (by decide)⟩

/-- C9 (counterexample): at status 304 the plain transport's success flag is
false although 304 ∈ [200, 400) and the browser-rendered flag is true: the
two implementations do not share the claimed convention. -/
theorem c9_counterexample :
    webCrawlerSuccess 304 = false ∧ (200 ≤ 304 ∧ 304 < 400) ∧
    PlaywrightAdapter.playwrightSuccess 304 = true := by decide

/-- C9 (amended): the browser-rendered fetch computes success exactly as
status ∈ [200,400) (its `bool(status)` guard is redundant) and installs it
in the page it builds, while the plain transport computes status ∈
[200,300); the two conventions disagree on every 3xx status. -/
theorem c9_success_conventions :
    (∀ status : Nat,
        PlaywrightAdapter.playwrightSuccess status = decide (200 ≤ status ∧ status < 400)) ∧
    (∀ (u : Url) (status : Nat) (rawHtml : Node) (lm : Option Int) (title : Option String),
        (PlaywrightAdapter.crawl_url_with_playwright u status rawHtml lm title).success =
          PlaywrightAdapter.playwrightSuccess status) ∧
    (∀ status : Nat, 300 ≤ status → status < 400 →
        webCrawlerSuccess status = false ∧
        PlaywrightAdapter.playwrightSuccess status = true) := by
  refine ⟨?_, ?_, ?_⟩
  · intro status
    unfold PlaywrightAdapter.playwrightSuccess
    rcases Nat.lt_or_ge status 200 with hlt | hge
    · have h1 : ¬ (200 ≤ status ∧ status < 400) := by omega
      simp [h1]
    · have h0 : status ≠ 0 := by omega
      simp [h0]
  · intro u status rawHtml lm title
    rfl
  · intro status h1 h2
    constructor
    · simp only [webCrawlerSuccess, decide_eq_false_iff_not]
      omega
    · simp only [PlaywrightAdapter.playwrightSuccess, Bool.and_eq_true, decide_eq_true_eq]
      omega

/-- C9 (witness). -/
theorem c9_witness :
    webCrawlerSuccess 304 = false ∧ PlaywrightAdapter.playwrightSuccess 304 = true :=
  c9_success_conventions.2.2 304 (by decide) (by decide)

/-- C10 (counterexample): the claim is not universal over visited pages: a
custom `link_extractor` also receives the raw markup, and the repository's
own interactive baseline re-parses `page.html`.  On a page whose only
anchor sits inside a `nav` region, the stripped document has no anchors
and the anchor has no occurrence outside removed regions, yet with the
interactive baseline installed that anchor appears in every reported
page's `links` and its target is fetched. -/
theorem c10_counterexample :
    findAnchors (stripTree exNavPage) = [] ∧
    hasCleanAnchor badSectionTags (Href.abs exChild1) exNavPage = false ∧
    ((scrape_website exEnvInteractive exRoot 2).1.dataLog.map (fun p => p.links)) =
      [[exChild1], [exChild1]] ∧
    (scrape_website exEnvInteractive exRoot 2).1.fetchLog = [exRoot, exChild1] := by
  decide

/-- C10 (amended): on the default-extractor path every page handed to
`data_handler` observes the stripped document: its `soup` is
`extract_page_text`'s in-place-stripped parse of its raw markup, its
`links` are exactly the default extraction over that stripped soup, and
every link resolves an anchor reachable outside all removed regions — an
anchor living only inside script/style/noscript/template/svg/iframe,
nav/footer/header/aside, under an image, or in a comment never surfaces in
`page.links` and is therefore never followed.  (A custom `link_extractor`
still receives the raw `page.html` and may bypass the stripping, as the
interactive baseline does.) -/
theorem c10_stripped_links (env : CrawlEnv) (u : Url) (d : Nat)
    (hext : env.linkExtractor = none) :
    ∀ p ∈ (scrape_website env u d).1.dataLog, GoodPage p :=
  scrapeVisit_pres env (fun s => ∀ p ∈ s.dataLog, GoodPage p)
    (fun d2 u2 s2 hs => stepCore_good env hext d2 u2 s2 hs)
    d u { visited := [], fetchLog := [], dataLog := [] }
    (fun p hp => absurd hp (List.not_mem_nil p))

/-- C10 (witness). -/
theorem c10_witness :
    ∃ p : ScrapedPage,
      p ∈ (scrape_website (exEnvBase (exWorldConst exFragPage)) exRoot 1).1.dataLog ∧
      GoodPage p := by
  obtain ⟨p, hp⟩ :
      ∃ p, (scrape_website (exEnvBase (exWorldConst exFragPage)) exRoot 1).1.dataLog = [p] :=
    ⟨_, rfl⟩
  refine ⟨p, by rw [hp]; exact List.mem_singleton_self p, ?_⟩
  exact c10_stripped_links (exEnvBase (exWorldConst exFragPage)) exRoot 1 rfl p
    (by rw [hp]; exact List.mem_singleton_self p)
